import Mathlib

/-!
Verification development for the Go-Live-Buddy answer-streaming and
evidence-grounding pipeline (`backend/agent.py`).

The Python source is shallowly embedded below.  Conventions used throughout:

* Python floats (relevance scores) are modelled as rationals (`ℚ`); the only
  operations performed on them in the source are comparisons against the
  constant threshold `0.3`, `round(x, 3)` and serialisation, all of which are
  exact on the inputs of interest.
* Python `None` is modelled by `Option`.
* A Python expression that can raise is modelled in `Except String`; a
  `try/except` handler is modelled by matching on the `Except` value.
* Object identity (`id(n)` in `_serialize_sources`) is modelled by pairing
  each node with its position in the retrieved list (`List.enum`): distinct
  list positions are distinct objects.
* The retrieval oracle (vector store, index, query engine) is external to the
  core (spec §1, §6); its outcome is an input of the orchestrator: either an
  exception raised in step 1 or a token list plus the capture of
  `response.source_nodes` (itself fallible, as in the source).
* `metadata["frame_index"]` values coming from the oracle may or may not be
  convertible by Python's `int(...)`; such a value is modelled as
  `Except String Int` — `.ok n` converts to `n`, `.error s` makes `int(...)`
  raise.
* `json.dumps` can raise on non-serialisable metadata values; each node's
  metadata carries a `jsonSerializable` flag modelling that possibility.
-/

deriving instance DecidableEq for Except

/-- A JSON value as produced by `json.loads` on the vision model's reply;
only integers and strings occur in the coordinate objects of interest. -/
inductive JVal where
  | jint (n : Int)
  | jstr (s : String)
deriving DecidableEq, Repr

/-- A parsed JSON object (Python `dict`): an insertion-ordered key/value list. -/
abbrev JsonObj := List (String × JVal)

/-- Abstract stand-in for a `PIL.Image.Image`; its contents are never
inspected by the embedded code. -/
structure Image where
  data : Nat
deriving DecidableEq, Repr

/-- The allow-listed metadata of an evidence node (`n.node.metadata`); the
allow-list of `_serialize_sources` is exactly this field set, so the
`{k: v ... if k in (...)}` filter is the identity on this model.
`frame_index` is `.ok n` when Python's `int(...)` would convert it to `n`,
`.error s` when `int(...)` would raise on it.  `jsonSerializable` models
whether `json.dumps` succeeds on the values of this metadata mapping. -/
structure NodeMeta where
  source : Option String := none
  frame_index : Option (Except String Int) := none
  content_tier : Option String := none
  type : Option String := none
  page_label : Option String := none
  ticket_id : Option String := none
  frame_image_url : Option String := none
  jsonSerializable : Bool := true
deriving DecidableEq, Repr

/-- A scored retrieval result (`NodeWithScore`): `score` is `n.score`
(possibly `None`), `meta` is `n.node.metadata` (possibly `None`), and
`content` models `n.node.get_content()` — `.error ()` means the call raises
(caught inside `to_dict`), `.ok c` means it returns `c` (possibly `None`). -/
structure ScoredNode where
  score : Option ℚ := none
  meta : Option NodeMeta := none
  content : Except Unit (Option String) := .ok (some "")
deriving DecidableEq, Repr

/-- `SOURCE_SCORE_THRESHOLD = 0.3` (written with `mkRat`, which the kernel
can evaluate, unlike `Rat.div`). -/
def SOURCE_SCORE_THRESHOLD : ℚ := mkRat 3 10

/-- `FOCUS_MARKER_START`. -/
def FOCUS_MARKER_START : String := "__FOCUS__"

/-- `FOCUS_MARKER_END`. -/
def FOCUS_MARKER_END : String := "__END_FOCUS__"

/-- `n.score or 0` (a `None` score is treated as `0`; `0.0` is falsy in
Python but `or` then still yields `0`, the same value). -/
def scoreOr0 (n : ScoredNode) : ℚ := n.score.getD 0

/-- `n.node.metadata or {}`. -/
def metaOf (n : ScoredNode) : NodeMeta := n.meta.getD {}

/-- `node_type(n)`: `(n.node.metadata or {}).get("type", "video")`. -/
def node_type (n : ScoredNode) : String := (metaOf n).type.getD "video"

/-- The integer nearest to `a / b` (for `b > 0`), ties to the even integer:
`d` is the floor (`Int./` is floor division for a positive divisor) and `r`
the remainder. -/
def nearestEven (a b : Int) : Int :=
  let d : Int := a / b
  let r : Int := a - d * b
  if 2 * r < b then d
  else if b < 2 * r then d + 1
  else if d % 2 = 0 then d else d + 1

/-- `round(x, 3)` on exact rationals, with Python's round-half-to-even
tie-breaking: the integer nearest to `x * 1000 = (x.num * 1000) / x.den`
(ties to even), divided by `1000`, computed by exact integer arithmetic. -/
def round3 (q : ℚ) : ℚ := mkRat (nearestEven (q.num * 1000) (q.den : Int)) 1000

/-- The serialisable projection of a node built by `to_dict` inside
`_serialize_sources` (a `SourceCitation`). -/
structure Citation where
  text : String
  score : ℚ
  metadata : NodeMeta
deriving DecidableEq, Repr

/-- The slice `s[:1500]`: the first 1500 characters (code points) of `s`,
taken on the character list so that evaluation stops at the end of a short
string. -/
def slice1500 (s : String) : String := String.mk (s.toList.take 1500)

/-- `to_dict(n)`: builds the citation dict, returning `None` when
`get_content()` raises (the `except` at the bottom of `to_dict`). -/
def to_dict (n : ScoredNode) : Option Citation :=
  match n.content with
  | .error _ => none
  | .ok c =>
      some { text := slice1500 (c.getD "")
             score := round3 (scoreOr0 n)
             metadata := metaOf n }

/-- `type_priority = ["video", "pdf_document", "jira_ticket"]`. -/
def type_priority : List String := ["video", "pdf_document", "jira_ticket"]

/-- Step 1 of `_serialize_sources`: the `best_by_type` loop.  `candidates`
are paired with their original list positions (object identity); the
accumulator is the insertion-ordered dict `best_by_type`.  The loop breaks
as soon as the dict holds `len(type_priority)` entries. -/
def bestGo : List (Nat × ScoredNode) → List (String × Nat × ScoredNode) →
    List (String × Nat × ScoredNode)
  | [], acc => acc
  | p :: rest, acc =>
      let t := node_type p.2
      let acc' := if acc.any (fun e => e.1 = t) then acc else acc ++ [(t, p)]
      if acc'.length = type_priority.length then acc' else bestGo rest acc'

/-- Step 2 of `_serialize_sources`: fill remaining slots up to
`MAX_SOURCES = 5` with candidates whose identity is not yet selected. -/
def fillGo : List (Nat × ScoredNode) → List (Nat × ScoredNode) → List Nat →
    List (Nat × ScoredNode)
  | [], diverse, _ => diverse
  | p :: rest, diverse, sel =>
      if diverse.length ≥ 5 then diverse
      else if p.1 ∈ sel then fillGo rest diverse sel
      else fillGo rest (diverse ++ [p]) (p.1 :: sel)

/-- The threshold filter of `_serialize_sources`:
`[n for n in source_nodes if (n.score or 0) >= SOURCE_SCORE_THRESHOLD]`,
with original positions attached as identities. -/
def candidatesOf (source_nodes : List ScoredNode) : List (Nat × ScoredNode) :=
  source_nodes.enum.filter (fun p => SOURCE_SCORE_THRESHOLD ≤ scoreOr0 p.2)

/-- The `diverse` list of `_serialize_sources` after both selection steps. -/
def diversify (cands : List (Nat × ScoredNode)) : List (Nat × ScoredNode) :=
  let best := (bestGo cands []).map (fun e => e.2)
  fillGo cands best (best.map (fun p => p.1))

/-- The `result` list of `_serialize_sources`: the selected nodes serialised
by `to_dict`, dropping the `None`s. -/
def serialize_sources_list (source_nodes : List ScoredNode) : List Citation :=
  let cands := candidatesOf source_nodes
  if cands.isEmpty then []
  else (diversify cands).filterMap (fun p => to_dict p.2)

/-- Rendering of a rational score in the emitted JSON. -/
def renderScore (q : ℚ) : String := toString q

/-- Rendering of one citation as a JSON object (the exact JSON text is never
inspected by the pipeline; only its emptiness and framing matter). -/
def renderCitation (c : Citation) : String :=
  "\x7b\"text\": \"" ++ c.text ++ "\", \"score\": " ++ renderScore c.score ++ "\x7d"

/-- Rendering of the citation array (`json.dumps(result)`), successful case. -/
def renderCitations (l : List Citation) : String :=
  "[" ++ String.intercalate ", " (l.map renderCitation) ++ "]"

/-- `json.dumps(result)`: raises when some metadata value is not JSON
serialisable. -/
def dumpsCitations (l : List Citation) : Except String String :=
  if l.all (fun c => c.metadata.jsonSerializable) then .ok (renderCitations l)
  else .error "Object of type X is not JSON serializable"

/-- `_serialize_sources(source_nodes)`: returns `""` when no candidate
clears the threshold or no node serialises, otherwise the framed
`__SOURCES__` marker; `.error` models an exception escaping the function
(only `json.dumps` can raise — the per-node `try` inside `to_dict` catches
everything else). -/
def serialize_sources (source_nodes : List ScoredNode) : Except String String :=
  let result := serialize_sources_list source_nodes
  if result.isEmpty then .ok ""
  else
    match dumpsCitations result with
    | .error e => .error e
    | .ok j => .ok ("\n\n__SOURCES__" ++ j ++ "__END_SOURCES__")

/-- The process environment and external collaborators seen by the focus
pipeline (spec §6): the local frame store, the `FRONTEND_URL` and
`GOOGLE_API_KEY` environment variables (`""` models an unset variable), the
HTTP fetch of a frame by URL (`none` models any `urllib` exception, caught
in `_load_frame_image`), and the Gemini Vision call.  The vision collaborator
is modelled at the parse level: `.error` is a raised exception
(`generate_content` failing), `.ok none` is a reply whose fence-stripped text
does not parse as a JSON object (`json.loads` raising `JSONDecodeError`, or
the parse not being usable as a dict), and `.ok (some o)` is a reply parsing
to the JSON object `o`. -/
structure AgentCfg where
  localFrames : String → Int → Option Image
  frontendUrlEnv : String
  fetchFrame : String → Option Image
  apiKey : String
  vision : String → Image → Except String (Option JsonObj)

/-- `s.rstrip("/")`: drop trailing `/` characters (computed on the
character list). -/
def rstripSlashes (s : String) : String :=
  String.mk ((s.toList.reverse.dropWhile (fun c => c = '/')).reverse)

/-- `s.startswith("http")` (computed on the character list). -/
def startsWithHttp (s : String) : Bool :=
  "http".toList.isPrefixOf s.toList

/-- `_load_frame_image(namespace, frame_index)`: strategy 1 reads the local
file; strategy 2 requires `FRONTEND_URL` (right-stripped of `/`, prefixed
with `https://` when no protocol is given) and fetches
`<frontend>/frames/<namespace>/<frame_index>.jpg`; every fetch failure is
caught and yields `None`. -/
def load_frame_image (cfg : AgentCfg) (ns : String) (frame_index : Int) :
    Option Image :=
  match cfg.localFrames ns frame_index with
  | some img => some img
  | none =>
      let raw_frontend := rstripSlashes cfg.frontendUrlEnv
      if raw_frontend = "" then none
      else
        let frontend_url :=
          if startsWithHttp raw_frontend then raw_frontend
          else "https://" ++ raw_frontend
        cfg.fetchFrame
          (frontend_url ++ "/frames/" ++ ns ++ "/" ++ toString frame_index ++ ".jpg")

/-- The instruction template sent to Gemini Vision by `_get_focus_coord`
(JSON braces written via escapes). -/
def focusPrompt (query : String) : String :=
  "The user needs help with: " ++ query ++
  "\n\nLook at this UI screenshot. Identify the SINGLE most relevant interactive element " ++
  "(button, field, link, menu item) the user needs to click or interact with to " ++
  "perform the action described.\n\n" ++
  "Return ONLY a JSON object, no markdown, no explanation:\n" ++
  "\x7b\"x_pct\": <left edge as % of image width, integer 0-100>, " ++
  "\"y_pct\": <top edge as % of image height, integer 0-100>, " ++
  "\"w_pct\": <element width as % of image width, integer 1-100>, " ++
  "\"h_pct\": <element height as % of image height, integer 1-100>, " ++
  "\"label\": \"<short element name>\"\x7d\n\n" ++
  "If no specific element is clearly relevant, return " ++
  "\x7b\"x_pct\": 10, \"y_pct\": 10, \"w_pct\": 80, \"h_pct\": 80, \"label\": \"Screen area\"\x7d"

/-- The five keys `_get_focus_coord` requires in the parsed reply. -/
def requiredCoordKeys : List String := ["x_pct", "y_pct", "w_pct", "h_pct", "label"]

/-- `_get_focus_coord(namespace, frame_index, query)`: locate the frame image
(`None` → `None`), require `GOOGLE_API_KEY` (unset → `None`), call Gemini
Vision inside `try` (any raise, including `json.loads` failing, is caught →
`None`), then validate that all five required keys are present — and nothing
else: the values are returned exactly as parsed. -/
def get_focus_coord (cfg : AgentCfg) (ns : String) (frame_index : Int)
    (query : String) : Option JsonObj :=
  match load_frame_image cfg ns frame_index with
  | none => none
  | some img =>
      if cfg.apiKey = "" then none
      else
        match cfg.vision (focusPrompt query) img with
        | .error _ => none
        | .ok none => none
        | .ok (some coord) =>
            if requiredCoordKeys.all (fun k => (coord.lookup k).isSome) then some coord
            else none

/-- Helper for the `re.search(r"/frames/([^/]+)/", frame_url)` embedding:
given the characters following a `"/frames/"` occurrence, match `[^/]+`
followed by a literal `/`. -/
def matchNsAfterFrames (cs : List Char) : Option String :=
  let seg := cs.takeWhile (fun c => c ≠ '/')
  if seg.isEmpty then none
  else if seg.length < cs.length then some (String.mk seg)
  else none

/-- Leftmost-match scan for the pattern `/frames/([^/]+)/`: at each position
try to match the literal `"/frames/"` and then the capture; on capture
failure keep scanning from the next position, as `re.search` does. -/
def scanForFramesNs : List Char → Option String
  | [] => none
  | c :: rest =>
      if (c :: rest).take 8 = "/frames/".toList then
        match matchNsAfterFrames ((c :: rest).drop 8) with
        | some s => some s
        | none => scanForFramesNs rest
      else scanForFramesNs rest

/-- `re.search(r"/frames/([^/]+)/", frame_url)`, capture group 1. -/
def parseFramesNs (frame_url : String) : Option String :=
  scanForFramesNs frame_url.toList

/-- `MAX_VIDEO_FRAMES = 3`. -/
def MAX_VIDEO_FRAMES : Nat := 3

/-- Namespace resolution for one video node (lines 216–218): parse the
namespace out of `frame_image_url` when that metadata value is non-empty,
falling back to the caller-supplied namespace. -/
def resolveNs (meta : NodeMeta) (ns : String) : String :=
  let frame_url := meta.frame_image_url.getD ""
  if frame_url = "" then ns
  else (parseFramesNs frame_url).getD ns

/-- Task-list extension (lines 219–220): append the frame only when a
non-empty namespace was resolved. -/
def taskStep (video_tasks : List (Int × String)) (fi : Int) (resolved_ns : String) :
    List (Int × String) :=
  if resolved_ns = "" then video_tasks else video_tasks ++ [(fi, resolved_ns)]

/-- The deduplication loop of `_get_focus_marker` (lines 201–222): walk the
captured sources in order; skip `pdf_document`/`jira_ticket` nodes and nodes
without a `frame_index`; `int(frame_index)` raises on a non-convertible
value (`.error`); skip already-seen frame indices; resolve a namespace and
extend the task list; stop as soon as `MAX_VIDEO_FRAMES` tasks are
collected. -/
def collectVideoTasks : List ScoredNode → List Int → List (Int × String) → String →
    Except String (List (Int × String))
  | [], _, video_tasks, _ => .ok video_tasks
  | n :: rest, seen_frames, video_tasks, ns =>
      let meta := metaOf n
      if meta.type = some "pdf_document" ∨ meta.type = some "jira_ticket" then
        collectVideoTasks rest seen_frames video_tasks ns
      else
        match meta.frame_index with
        | none => collectVideoTasks rest seen_frames video_tasks ns
        | some (.error s) =>
            .error ("invalid literal for int() with base 10: " ++ s)
        | some (.ok fi) =>
            if fi ∈ seen_frames then collectVideoTasks rest seen_frames video_tasks ns
            else
              let seen' := fi :: seen_frames
              let tasks' := taskStep video_tasks fi (resolveNs meta ns)
              if MAX_VIDEO_FRAMES ≤ tasks'.length then .ok tasks'
              else collectVideoTasks rest seen' tasks' ns

/-- The fan-out/fan-in of `_get_focus_marker`: call `_get_focus_coord` for
every task (the thread pool delivers results in task order) and keep the
non-`None` results, keyed by frame index.  This is the `coords_map` dict,
whose keys are emitted as `str(fi)`. -/
def coordPairs (cfg : AgentCfg) (video_tasks : List (Int × String)) (query : String) :
    List (Int × JsonObj) :=
  video_tasks.filterMap
    (fun t => (get_focus_coord cfg t.2 t.1 query).map (fun c => (t.1, c)))

/-- Rendering of a JSON value in the emitted focus map. -/
def renderJVal : JVal → String
  | .jint n => toString n
  | .jstr s => "\"" ++ s ++ "\""

/-- Rendering of a coordinate object. -/
def renderCoord (o : JsonObj) : String :=
  "\x7b" ++ String.intercalate ", "
    (o.map (fun kv => "\"" ++ kv.1 ++ "\": " ++ renderJVal kv.2)) ++ "\x7d"

/-- `json.dumps(coords_map)`: keys are the stringified frame indices. -/
def renderFocusMap (pairs : List (Int × JsonObj)) : String :=
  "\x7b" ++ String.intercalate ", "
    (pairs.map (fun p => "\"" ++ toString p.1 ++ "\": " ++ renderCoord p.2)) ++ "\x7d"

/-- `_get_focus_marker(captured_sources, query, namespace)`: `""` on an empty
capture, on no video tasks, or when every vision call returns `None`;
`.error` when the deduplication loop raises (non-convertible `frame_index`);
otherwise the framed `__FOCUS__` marker around the coords map. -/
def get_focus_marker (cfg : AgentCfg) (captured_sources : List ScoredNode)
    (query : String) (ns : String) : Except String String :=
  if captured_sources.isEmpty then .ok ""
  else
    match collectVideoTasks captured_sources [] [] ns with
    | .error e => .error e
    | .ok video_tasks =>
        if video_tasks.isEmpty then .ok ""
        else
          let coords_map := coordPairs cfg video_tasks query
          if coords_map.isEmpty then .ok ""
          else
            .ok ("\n\n" ++ FOCUS_MARKER_START ++ renderFocusMap coords_map ++
              FOCUS_MARKER_END)

/-- The outcome of step 1 plus the capture step of `query_agent_stream`:
`tokens` is the token stream produced by `response.response_gen` (relayed
verbatim), `sourcesCapture` is `list(response.source_nodes or [])`, whose
failure is caught and replaced by `[]`. -/
structure RetrievalOk where
  tokens : List String
  sourcesCapture : Except String (List ScoredNode)

/-- `captured_sources` after the `try/except` around the capture. -/
def capturedOf (r : RetrievalOk) : List ScoredNode :=
  match r.sourcesCapture with
  | .ok l => l
  | .error _ => []

/-- The single error chunk emitted when step 1 raises `e`. -/
def systemErrorChunk (e : String) : String :=
  "[System Error] Unable to query knowledge base. Error: " ++ e

/-- The chunk list contributed by the sources step of `query_agent_stream`:
the marker is yielded when non-empty; an exception from
`_serialize_sources` is caught and contributes nothing. -/
def sourcesChunkList (captured_sources : List ScoredNode) : List String :=
  match serialize_sources captured_sources with
  | .ok m => if m = "" then [] else [m]
  | .error _ => []

/-- The chunk list contributed by the focus step of `query_agent_stream`:
the marker is yielded when non-empty; an exception from `_get_focus_marker`
is caught and contributes nothing. -/
def focusChunkList (cfg : AgentCfg) (captured_sources : List ScoredNode)
    (query : String) (ns : String) : List String :=
  match get_focus_marker cfg captured_sources query ns with
  | .ok m => if m = "" then [] else [m]
  | .error _ => []

/-- `query_agent_stream(query, namespace)` as the chunk sequence it yields.
The retrieval oracle (vector store, index construction, `query_engine.query`)
is external (spec §1, §6) and enters as the `retrieval` argument: `.error e`
is an exception raised in step 1, before any chunk is yielded, and lands in
the outer `except`, which yields the single `[System Error]` chunk; `.ok r`
carries the token stream and the capture of `response.source_nodes`.  Tokens
are relayed verbatim in order; then the sources marker, then the focus
marker, each inside its own `try/except`. -/
def query_agent_stream (cfg : AgentCfg) (retrieval : Except String RetrievalOk)
    (query : String) (ns : String) : List String :=
  match retrieval with
  | .error e => [systemErrorChunk e]
  | .ok r =>
      let captured := capturedOf r
      r.tokens ++ sourcesChunkList captured ++ focusChunkList cfg captured query ns

/-! ## Structural lemmas about the diversifier -/

/-- `bestGo` only ever appends to its accumulator, and what it appends is a
sublist of the candidate list (as values). -/
theorem bestGo_append (cands : List (Nat × ScoredNode)) :
    ∀ acc, ∃ ext, bestGo cands acc = acc ++ ext ∧
      List.Sublist (ext.map (fun e => e.2)) cands := by
  induction cands with
  | nil => intro acc; exact ⟨[], by simp [bestGo]⟩
  | cons p rest ih =>
      intro acc
      simp only [bestGo]
      split
      · next =>
          split
          · exact ⟨[], by simp, List.nil_sublist _⟩
          · obtain ⟨ext, h1, h2⟩ := ih acc
            exact ⟨ext, h1, h2.trans (List.sublist_cons_self p rest)⟩
      · next =>
          split
          · exact ⟨[(node_type p.2, p)], rfl, by
              simp only [List.map_cons, List.map_nil]
              exact List.Sublist.cons₂ p (List.nil_sublist rest)⟩
          · obtain ⟨ext, h1, h2⟩ := ih (acc ++ [(node_type p.2, p)])
            refine ⟨(node_type p.2, p) :: ext, by simpa using h1, ?_⟩
            simpa using List.Sublist.cons₂ p h2

/-- `fillGo` only ever appends to `diverse`, and what it appends is a
sublist of the candidate list. -/
theorem fillGo_append (cands : List (Nat × ScoredNode)) :
    ∀ diverse sel, ∃ ext, fillGo cands diverse sel = diverse ++ ext ∧
      List.Sublist ext cands := by
  induction cands with
  | nil => intro diverse sel; exact ⟨[], by simp [fillGo]⟩
  | cons p rest ih =>
      intro diverse sel
      simp only [fillGo]
      split
      · exact ⟨[], by simp, List.nil_sublist _⟩
      · split
        · obtain ⟨ext, h1, h2⟩ := ih diverse sel
          exact ⟨ext, h1, h2.trans (List.sublist_cons_self p rest)⟩
        · obtain ⟨ext, h1, h2⟩ := ih (diverse ++ [p]) (p.1 :: sel)
          exact ⟨p :: ext, by simpa using h1, List.Sublist.cons₂ p h2⟩

/-- The values picked by the `best_by_type` step form a sublist of the
candidate list. -/
theorem bestGo_values_sublist (cands : List (Nat × ScoredNode)) :
    List.Sublist ((bestGo cands []).map (fun e => e.2)) cands := by
  obtain ⟨ext, h1, h2⟩ := bestGo_append cands []
  simpa [h1] using h2

/-- The `best_by_type` dict never holds more than three entries. -/
theorem bestGo_length (cands : List (Nat × ScoredNode)) :
    ∀ acc, acc.length ≤ 2 → (bestGo cands acc).length ≤ 3 := by
  induction cands with
  | nil => intro acc h; simpa [bestGo] using h.trans (by norm_num)
  | cons p rest ih =>
      intro acc h
      simp only [bestGo]
      split
      · next =>
          split
          · next heq =>
              simp only [type_priority, List.length_cons, List.length_nil] at heq
              omega
          · exact ih acc h
      · next =>
          split
          · next heq =>
              simp only [type_priority, List.length_cons, List.length_nil] at heq
              simp only [List.length_append, List.length_singleton]
              omega
          · next heq =>
              refine ih _ ?_
              simp only [type_priority, List.length_append, List.length_singleton,
                List.length_cons, List.length_nil] at heq
              simp only [List.length_append, List.length_singleton]
              omega

/-- `fillGo` never grows `diverse` beyond `MAX_SOURCES = 5`. -/
theorem fillGo_length (cands : List (Nat × ScoredNode)) :
    ∀ diverse sel, diverse.length ≤ 5 → (fillGo cands diverse sel).length ≤ 5 := by
  induction cands with
  | nil => intro diverse sel h; simpa [fillGo] using h
  | cons p rest ih =>
      intro diverse sel h
      simp only [fillGo]
      split
      · exact h
      · split
        · exact ih diverse sel h
        · next hlt _ =>
            refine ih _ _ ?_
            simp only [List.length_append, List.length_singleton]
            omega

/-- Everything selected by the diversifier is a candidate. -/
theorem diversify_subset {cands : List (Nat × ScoredNode)} {p : Nat × ScoredNode}
    (hp : p ∈ diversify cands) : p ∈ cands := by
  unfold diversify at hp
  obtain ⟨ext, h1, h2⟩ := fillGo_append cands ((bestGo cands []).map (fun e => e.2))
    (((bestGo cands []).map (fun e => e.2)).map (fun q => q.1))
  rw [h1] at hp
  rcases List.mem_append.mp hp with h | h
  · exact (bestGo_values_sublist cands).subset h
  · exact h2.subset h

/-- The diversified selection holds at most `MAX_SOURCES = 5` entries. -/
theorem diversify_length (cands : List (Nat × ScoredNode)) :
    (diversify cands).length ≤ 5 := by
  unfold diversify
  refine fillGo_length cands _ _ ?_
  simpa using (bestGo_length cands [] (by simp)).trans (by norm_num)

/-! ## Candidate-list lemmas -/

/-- A candidate's node occurs in the input and clears the threshold. -/
theorem mem_candidatesOf {source_nodes : List ScoredNode} {p : Nat × ScoredNode}
    (hp : p ∈ candidatesOf source_nodes) :
    p.2 ∈ source_nodes ∧ SOURCE_SCORE_THRESHOLD ≤ scoreOr0 p.2 := by
  unfold candidatesOf at hp
  have h1 := List.mem_of_mem_filter hp
  have h2 := List.of_mem_filter hp
  constructor
  · have : p.2 ∈ source_nodes.enum.map Prod.snd := List.mem_map_of_mem Prod.snd h1
    simpa [List.enum_map_snd] using this
  · simpa using h2

/-- Every input node that clears the threshold occurs, with its position, in
the candidate list. -/
theorem exists_candidate {source_nodes : List ScoredNode} {n : ScoredNode}
    (hn : n ∈ source_nodes) (hs : SOURCE_SCORE_THRESHOLD ≤ scoreOr0 n) :
    ∃ i, (i, n) ∈ candidatesOf source_nodes := by
  have : n ∈ source_nodes.enum.map Prod.snd := by simpa [List.enum_map_snd] using hn
  obtain ⟨p, hp, hsnd⟩ := List.mem_map.mp this
  refine ⟨p.1, ?_⟩
  unfold candidatesOf
  have : (p.1, n) = p := by cases p; simp_all
  rw [this]
  exact List.mem_filter.mpr ⟨hp, by simpa [hsnd] using hs⟩

/-- The candidate list inherits the oracle's descending-score ordering. -/
theorem candidatesOf_pairwise {source_nodes : List ScoredNode}
    (h : source_nodes.Pairwise (fun a b => scoreOr0 b ≤ scoreOr0 a)) :
    (candidatesOf source_nodes).Pairwise (fun a b => scoreOr0 b.2 ≤ scoreOr0 a.2) := by
  unfold candidatesOf
  refine List.Pairwise.filter _ ?_
  have : source_nodes.enum.map Prod.snd = source_nodes := List.enum_map_snd _
  rw [← this] at h
  exact (List.pairwise_map.mp h)

/-- Candidate identities (original positions) are pairwise distinct. -/
theorem candidatesOf_fst_nodup (source_nodes : List ScoredNode) :
    ((candidatesOf source_nodes).map (fun p => p.1)).Nodup := by
  unfold candidatesOf
  have hsub : List.Sublist
      ((source_nodes.enum.filter
        (fun p => decide (SOURCE_SCORE_THRESHOLD ≤ scoreOr0 p.2))).map (fun p => p.1))
      (source_nodes.enum.map (fun p => p.1)) :=
    (List.filter_sublist _).map _
  have : (source_nodes.enum.map (fun p : Nat × ScoredNode => p.1)).Nodup := by
    have := List.enum_map_fst source_nodes
    simp only [show Prod.fst = (fun p : Nat × ScoredNode => p.1) from rfl] at this
    rw [this]; exact List.nodup_range _
  exact this.sublist hsub

/-! ## Rounding lemmas -/

/-- The nearest integer to `a / b` is at least any integer `m` with
`m * b ≤ a`. -/
theorem nearestEven_ge (a b : Int) (hb : 0 < b) {m : Int} (hm : m * b ≤ a) :
    m ≤ nearestEven a b := by
  have hd : m ≤ a / b := (Int.le_ediv_iff_mul_le hb).mpr hm
  unfold nearestEven
  dsimp only
  split
  · exact hd
  · split
    · omega
    · split
      · exact hd
      · omega

/-- The threshold constant as a quotient. -/
theorem threshold_eq : SOURCE_SCORE_THRESHOLD = (3 : ℚ) / 10 := by
  rw [SOURCE_SCORE_THRESHOLD, Rat.mkRat_eq_divInt, Rat.divInt_eq_div]
  norm_num

/-- Rounding a score to three decimals preserves clearing the `0.3`
threshold. -/
theorem le_round3 {q : ℚ} (h : SOURCE_SCORE_THRESHOLD ≤ q) :
    SOURCE_SCORE_THRESHOLD ≤ round3 q := by
  have hden : (0 : ℤ) < (q.den : ℤ) := by exact_mod_cast q.den_pos
  have key : 300 * (q.den : ℤ) ≤ q.num * 1000 := by
    have h2 : (3 : ℚ) / 10 ≤ (q.num : ℚ) / (q.den : ℚ) := by
      rw [Rat.num_div_den]; rw [threshold_eq] at h; exact h
    have hq : (0 : ℚ) < (q.den : ℚ) := by exact_mod_cast hden
    rw [div_le_div_iff₀ (by norm_num) hq] at h2
    have h3 : (3 : ℤ) * (q.den : ℤ) ≤ q.num * 10 := by exact_mod_cast h2
    linarith
  have hk : (300 : ℤ) ≤ nearestEven (q.num * 1000) (q.den : Int) :=
    nearestEven_ge _ _ hden key
  rw [threshold_eq, round3, Rat.mkRat_eq_divInt, Rat.divInt_eq_div]
  have hcast : (300 : ℚ) ≤ (nearestEven (q.num * 1000) (q.den : Int) : ℚ) := by
    exact_mod_cast hk
  calc (3 : ℚ) / 10 = (300 : ℚ) / 1000 := by norm_num
    _ ≤ _ := by
        rw [div_le_div_iff₀ (by norm_num) (by push_cast; norm_num)]
        push_cast
        nlinarith

/-! ## The serialised citation list -/

/-- Every emitted citation is the serialisation of an input node that
clears the threshold. -/
theorem mem_serialize_sources_list {source_nodes : List ScoredNode} {c : Citation}
    (hc : c ∈ serialize_sources_list source_nodes) :
    ∃ n, n ∈ source_nodes ∧ SOURCE_SCORE_THRESHOLD ≤ scoreOr0 n ∧ to_dict n = some c := by
  simp only [serialize_sources_list] at hc
  split at hc
  · simp at hc
  · obtain ⟨p, hp, hdict⟩ := List.mem_filterMap.mp hc
    obtain ⟨hmem, hthr⟩ := mem_candidatesOf (diversify_subset hp)
    exact ⟨p.2, hmem, hthr, hdict⟩

/-- A successfully serialised node yields a citation carrying the rounded
score. -/
theorem to_dict_score {n : ScoredNode} {c : Citation} (h : to_dict n = some c) :
    c.score = round3 (scoreOr0 n) := by
  unfold to_dict at h
  split at h
  · exact absurd h (by simp)
  · cases h; rfl

/-- **C3.** For every input evidence list, every citation emitted by the
diversifier (`_serialize_sources`) has score ≥ 0.3, and arises from an input
node whose (missing-as-0) score clears the threshold — so nodes scoring
below the threshold never appear in the `__SOURCES__` marker. -/
theorem claim_C3_citation_score_threshold (source_nodes : List ScoredNode) (c : Citation)
    (hc : c ∈ serialize_sources_list source_nodes) :
    SOURCE_SCORE_THRESHOLD ≤ c.score ∧
    ∃ n, n ∈ source_nodes ∧ SOURCE_SCORE_THRESHOLD ≤ scoreOr0 n ∧ to_dict n = some c := by
  obtain ⟨n, hn, hthr, hdict⟩ := mem_serialize_sources_list hc
  refine ⟨?_, n, hn, hthr, hdict⟩
  rw [to_dict_score hdict]
  exact le_round3 hthr

/-- A concrete node for the C3 witness. -/
def c3Node : ScoredNode :=
  { score := some 1, meta := some { type := some "video" }, content := .ok (some "t") }

/-- The citation the pipeline emits for `c3Node`. -/
def c3Citation : Citation :=
  { text := "t", score := round3 (scoreOr0 c3Node), metadata := metaOf c3Node }

/-- Witness for C3 at a concrete input. -/
theorem claim_C3_witness : SOURCE_SCORE_THRESHOLD ≤ c3Citation.score :=
  (claim_C3_citation_score_threshold [c3Node] c3Citation (by decide)).1

/-! ## Identity (no node selected twice) and size bounds -/

/-- `fillGo` keeps selected identities distinct, provided the identities
already in `diverse` are all recorded in `sel`. -/
theorem fillGo_fst_nodup (cands : List (Nat × ScoredNode)) :
    ∀ diverse sel, ((diverse.map (fun p => p.1)).Nodup) →
      (∀ i ∈ diverse.map (fun p => p.1), i ∈ sel) →
      (((fillGo cands diverse sel).map (fun p => p.1)).Nodup) := by
  induction cands with
  | nil => intro diverse sel h1 _; simpa [fillGo] using h1
  | cons p rest ih =>
      intro diverse sel h1 h2
      simp only [fillGo]
      split
      · exact h1
      · split
        · exact ih diverse sel h1 h2
        · next hsel =>
            refine ih _ _ ?_ ?_
            · have hp : p.1 ∉ diverse.map (fun q => q.1) := fun hmem => hsel (h2 _ hmem)
              simp only [List.map_append, List.map_cons, List.map_nil]
              exact List.Nodup.append h1 (List.nodup_singleton _)
                (by intro a ha hb; simp at hb; subst hb; exact hp ha)
            · intro i hi
              simp only [List.map_append, List.map_cons, List.map_nil,
                List.mem_append, List.mem_singleton] at hi
              rcases hi with hi | rfl
              · exact List.mem_cons_of_mem _ (h2 _ hi)
              · exact List.mem_cons_self _ _

/-- The diversifier never selects the same candidate (object identity)
twice. -/
theorem diversify_fst_nodup (cands : List (Nat × ScoredNode))
    (h : ((cands.map (fun p => p.1)).Nodup)) :
    (((diversify cands).map (fun p => p.1)).Nodup) := by
  unfold diversify
  refine fillGo_fst_nodup cands _ _ ?_ (fun i hi => hi)
  have hsub : List.Sublist (((bestGo cands []).map (fun e => e.2)).map (fun p => p.1))
      (cands.map (fun p => p.1)) := (bestGo_values_sublist cands).map _
  exact h.sublist hsub

/-- A nodup list included in another list is no longer than it. -/
theorem length_le_of_nodup_subset {l₁ l₂ : List Nat} (h1 : l₁.Nodup)
    (h2 : ∀ x ∈ l₁, x ∈ l₂) : l₁.length ≤ l₂.length := by
  have hsub : l₁.toFinset ⊆ l₂.toFinset := by
    intro x hx
    rw [List.mem_toFinset] at hx ⊢
    exact h2 x hx
  calc l₁.length = l₁.toFinset.card := (List.toFinset_card_of_nodup h1).symm
    _ ≤ l₂.toFinset.card := Finset.card_le_card hsub
    _ ≤ l₂.length := l₂.toFinset_card_le

/-- The diversifier's selection is no larger than the candidate pool. -/
theorem diversify_length_le (cands : List (Nat × ScoredNode))
    (h : ((cands.map (fun p => p.1)).Nodup)) :
    (diversify cands).length ≤ cands.length := by
  have hnd := diversify_fst_nodup cands h
  have hsub : ∀ i ∈ (diversify cands).map (fun p => p.1), i ∈ cands.map (fun p => p.1) := by
    intro i hi
    obtain ⟨p, hp, rfl⟩ := List.mem_map.mp hi
    exact List.mem_map_of_mem _ (diversify_subset hp)
  have := length_le_of_nodup_subset hnd hsub
  simpa using this

/-- The candidate count equals the count of qualifying input nodes. -/
theorem candidatesOf_length (source_nodes : List ScoredNode) :
    (candidatesOf source_nodes).length =
      (source_nodes.filter (fun n => SOURCE_SCORE_THRESHOLD ≤ scoreOr0 n)).length := by
  unfold candidatesOf
  have h := List.filter_map (f := (Prod.snd : Nat × ScoredNode → ScoredNode))
    (p := fun n => decide (SOURCE_SCORE_THRESHOLD ≤ scoreOr0 n)) (l := source_nodes.enum)
  have h2 : (source_nodes.enum.map Prod.snd).filter
      (fun n => decide (SOURCE_SCORE_THRESHOLD ≤ scoreOr0 n)) =
      source_nodes.filter (fun n => decide (SOURCE_SCORE_THRESHOLD ≤ scoreOr0 n)) := by
    rw [List.enum_map_snd]
  have e1 : source_nodes.enum.filter (fun p => decide (SOURCE_SCORE_THRESHOLD ≤ scoreOr0 p.2)) =
      source_nodes.enum.filter
        ((fun n => decide (SOURCE_SCORE_THRESHOLD ≤ scoreOr0 n)) ∘ Prod.snd) := rfl
  calc (source_nodes.enum.filter
        (fun p => decide (SOURCE_SCORE_THRESHOLD ≤ scoreOr0 p.2))).length
      = ((source_nodes.enum.filter
        ((fun n => decide (SOURCE_SCORE_THRESHOLD ≤ scoreOr0 n)) ∘ Prod.snd)).map
          Prod.snd).length := by
        rw [← e1, List.length_map]
    _ = (source_nodes.filter (fun n => decide (SOURCE_SCORE_THRESHOLD ≤ scoreOr0 n))).length := by
        rw [← h, h2]

/-- **C7.** For every input evidence list: the emitted citation set holds at
most `MAX_SOURCES = 5` citations, never more citations than there are input
nodes with score ≥ 0.3, and no candidate (object identity) contributes more
than one selection. -/
theorem claim_C7_size_bounds (source_nodes : List ScoredNode) :
    (serialize_sources_list source_nodes).length ≤ 5 ∧
    (serialize_sources_list source_nodes).length ≤
      (source_nodes.filter (fun n => SOURCE_SCORE_THRESHOLD ≤ scoreOr0 n)).length ∧
    (((diversify (candidatesOf source_nodes)).map (fun p => p.1)).Nodup) := by
  have hlen : (serialize_sources_list source_nodes).length ≤
      (diversify (candidatesOf source_nodes)).length := by
    simp only [serialize_sources_list]
    split
    · simp
    · exact List.length_filterMap_le _ _
  refine ⟨hlen.trans (diversify_length (candidatesOf source_nodes)), ?_, ?_⟩
  · calc (serialize_sources_list source_nodes).length
        ≤ (diversify (candidatesOf source_nodes)).length := hlen
      _ ≤ (candidatesOf source_nodes).length :=
          diversify_length_le _ (candidatesOf_fst_nodup source_nodes)
      _ = _ := candidatesOf_length source_nodes
  · exact diversify_fst_nodup _ (candidatesOf_fst_nodup source_nodes)

/-! ## Output ordering (C5) -/

/-- Two videos above one pdf: the per-type step selects video@0.9 and
pdf@0.5, the fill step then appends video@0.8 **after** pdf@0.5. -/
def c5CexNodes : List ScoredNode :=
  [{ score := some (mkRat 9 10), meta := some { type := some "video" } },
   { score := some (mkRat 8 10), meta := some { type := some "video" } },
   { score := some (mkRat 5 10), meta := some { type := some "pdf_document" } }]

/-- Counterexample to **C5** as stated: a candidate list delivered sorted by
descending score whose emitted citation list is *not* sorted by descending
score (the scores come out as `[0.9, 0.5, 0.8]`). -/
theorem claim_C5_counterexample :
    c5CexNodes.Pairwise (fun a b => scoreOr0 b ≤ scoreOr0 a) ∧
    (serialize_sources_list c5CexNodes).map Citation.score =
      [mkRat 9 10, mkRat 5 10, mkRat 8 10] ∧
    ¬ ((serialize_sources_list c5CexNodes).map Citation.score).Pairwise
        (fun a b => b ≤ a) := by
  refine ⟨by decide, by decide, ?_⟩
  intro h
  rw [show (serialize_sources_list c5CexNodes).map Citation.score =
    [mkRat 9 10, mkRat 5 10, mkRat 8 10] from by decide] at h
  exact absurd h (by decide)

/-- The spec's §8 scenario: video@0.9 (frame 2), pdf@0.8, jira@0.5,
video@0.4 (frame 5). -/
def c5Scenario : List ScoredNode :=
  [{ score := some (mkRat 9 10),
     meta := some { type := some "video", frame_index := some (.ok 2) } },
   { score := some (mkRat 8 10), meta := some { type := some "pdf_document" } },
   { score := some (mkRat 5 10), meta := some { type := some "jira_ticket" } },
   { score := some (mkRat 4 10),
     meta := some { type := some "video", frame_index := some (.ok 5) } }]

/-- **C5 (amended).** On a candidate list delivered sorted by descending
score, the diversifier's output is the per-type-representative segment
followed by the capacity-fill segment, and each of the two segments is
itself sorted by descending score (the concatenation as a whole need not
be); on the spec's concrete scenario the emitted citation scores are
`[0.9, 0.8, 0.5, 0.4]`. -/
theorem claim_C5_fill_preserves_order :
    (∀ source_nodes : List ScoredNode,
      source_nodes.Pairwise (fun a b => scoreOr0 b ≤ scoreOr0 a) →
      ∃ B, diversify (candidatesOf source_nodes) =
          (bestGo (candidatesOf source_nodes) []).map (fun e => e.2) ++ B ∧
        ((bestGo (candidatesOf source_nodes) []).map (fun e => e.2)).Pairwise
          (fun a b => scoreOr0 b.2 ≤ scoreOr0 a.2) ∧
        B.Pairwise (fun a b => scoreOr0 b.2 ≤ scoreOr0 a.2)) ∧
    (serialize_sources_list c5Scenario).map Citation.score =
      [mkRat 9 10, mkRat 8 10, mkRat 5 10, mkRat 4 10] := by
  constructor
  · intro source_nodes hsort
    have hc := candidatesOf_pairwise hsort
    obtain ⟨B, h1, h2⟩ := fillGo_append (candidatesOf source_nodes)
      ((bestGo (candidatesOf source_nodes) []).map (fun e => e.2))
      (((bestGo (candidatesOf source_nodes) []).map (fun e => e.2)).map (fun p => p.1))
    refine ⟨B, h1, ?_, List.Pairwise.sublist h2 hc⟩
    exact List.Pairwise.sublist (bestGo_values_sublist (candidatesOf source_nodes)) hc
  · decide

/-- Witness for the amended C5 at the spec's scenario input. -/
theorem claim_C5_witness :
    ∃ B, diversify (candidatesOf c5Scenario) =
        (bestGo (candidatesOf c5Scenario) []).map (fun e => e.2) ++ B ∧
      ((bestGo (candidatesOf c5Scenario) []).map (fun e => e.2)).Pairwise
        (fun a b => scoreOr0 b.2 ≤ scoreOr0 a.2) ∧
      B.Pairwise (fun a b => scoreOr0 b.2 ≤ scoreOr0 a.2) :=
  claim_C5_fill_preserves_order.1 c5Scenario (by decide)

/-! ## Type diversity (C4) -/

/-- Three pairwise-distinct keys drawn from the three priority types
exhaust them: no fourth type can be missing. -/
theorem keys_exhaust {keys : List String} (hnd : keys.Nodup)
    (hsub : ∀ k ∈ keys, k ∈ type_priority) (hlen : keys.length = 3)
    {t : String} (ht : t ∈ type_priority) (hnott : t ∉ keys) : False := by
  have h1 : keys.toFinset ⊆ type_priority.toFinset := by
    intro x hx
    rw [List.mem_toFinset] at hx ⊢
    exact hsub x hx
  have h2 : type_priority.toFinset.card ≤ keys.toFinset.card := by
    rw [List.toFinset_card_of_nodup hnd, hlen]
    have : type_priority.toFinset.card = 3 := by decide
    omega
  have h3 := Finset.eq_of_subset_of_card_le h1 h2
  have h4 : t ∈ keys.toFinset := by
    rw [h3, List.mem_toFinset]
    exact ht
  exact hnott (List.mem_toFinset.mp h4)

/-- If every candidate's type lies among the three priority types and some
candidate has type `t`, then the `best_by_type` loop records, under key `t`,
the *first* candidate of type `t` — the early break cannot fire while `t` is
still missing. -/
theorem bestGo_finds {t : String} (ht : t ∈ type_priority) :
    ∀ (cands : List (Nat × ScoredNode)),
      (∀ p ∈ cands, node_type p.2 ∈ type_priority) →
      ∀ (acc : List (String × Nat × ScoredNode)) (c : Nat × ScoredNode),
        (∀ e ∈ acc, e.1 ∈ type_priority) →
        ((acc.map (fun e => e.1)).Nodup) →
        (∀ e ∈ acc, e.1 ≠ t) →
        cands.find? (fun p => node_type p.2 == t) = some c →
        (t, c) ∈ bestGo cands acc := by
  intro cands
  induction cands with
  | nil => intro _ acc c _ _ _ hfind; simp at hfind
  | cons p rest ih =>
      intro hall acc c hacc hnd hnott hfind
      have hallrest : ∀ q ∈ rest, node_type q.2 ∈ type_priority :=
        fun q hq => hall q (List.mem_cons_of_mem _ hq)
      by_cases htp : node_type p.2 = t
      · rw [List.find?_cons_of_pos _ (by simpa using htp)] at hfind
        cases hfind
        simp only [bestGo]
        have hany : acc.any (fun e => decide (e.1 = node_type p.2)) = false := by
          rw [List.any_eq_false]
          intro e he
          simpa [htp] using hnott e he
        rw [hany]
        simp only [Bool.false_eq_true, if_false]
        split
        · exact List.mem_append_right _ (by simp [htp])
        · obtain ⟨ext, heq, _⟩ := bestGo_append rest (acc ++ [(node_type p.2, p)])
          rw [heq]
          exact List.mem_append_left _ (List.mem_append_right _ (by simp [htp]))
      · rw [List.find?_cons_of_neg _ (by simpa using htp)] at hfind
        simp only [bestGo]
        by_cases hany : acc.any (fun e => decide (e.1 = node_type p.2)) = true
        · rw [hany]
          simp only [if_true]
          split
          · next hlen =>
              exfalso
              refine keys_exhaust hnd
                (fun k hk => ?_)
                (by rw [List.length_map]; simpa [type_priority] using hlen) ht
                (fun hmem => ?_)
              · obtain ⟨e, he, rfl⟩ := List.mem_map.mp hk
                exact hacc e he
              · obtain ⟨e, he, hfst⟩ := List.mem_map.mp hmem
                exact hnott e he hfst
          · exact ih hallrest acc c hacc hnd hnott hfind
        · rw [Bool.not_eq_true] at hany
          rw [hany]
          simp only [Bool.false_eq_true, if_false]
          have haccmem : ∀ e ∈ acc ++ [(node_type p.2, p)], e.1 ∈ type_priority := by
            intro e he
            rcases List.mem_append.mp he with he | he
            · exact hacc e he
            · simp at he
              rw [he]
              exact hall p (List.mem_cons_self _ _)
          have hndmem : (((acc ++ [(node_type p.2, p)]).map (fun e => e.1)).Nodup) := by
            simp only [List.map_append, List.map_cons, List.map_nil]
            refine List.Nodup.append hnd (List.nodup_singleton _) ?_
            intro a ha hb
            simp only [List.mem_singleton] at hb
            subst hb
            rw [List.any_eq_false] at hany
            obtain ⟨e, he, hfst⟩ := List.mem_map.mp ha
            exact absurd hfst (by simpa using hany e he)
          have hnotmem : ∀ e ∈ acc ++ [(node_type p.2, p)], e.1 ≠ t := by
            intro e he
            rcases List.mem_append.mp he with he | he
            · exact hnott e he
            · simp at he
              rw [he]
              exact htp
          split
          · next hlen =>
              exfalso
              refine keys_exhaust hndmem
                (fun k hk => ?_)
                (by rw [List.length_map]; simpa [type_priority] using hlen) ht
                (fun hmem => ?_)
              · obtain ⟨e, he, rfl⟩ := List.mem_map.mp hk
                exact haccmem e he
              · obtain ⟨e, he, hfst⟩ := List.mem_map.mp hmem
                exact hnotmem e he hfst
          · exact ih hallrest _ c haccmem hndmem hnotmem hfind

/-- In a descending-score-sorted list, `find?` returns a maximiser of the
score among the elements satisfying the predicate. -/
theorem find?_first_max {pr : Nat × ScoredNode → Bool} :
    ∀ {l : List (Nat × ScoredNode)},
      l.Pairwise (fun a b => scoreOr0 b.2 ≤ scoreOr0 a.2) →
      ∀ {c}, l.find? pr = some c →
        ∀ x ∈ l, pr x = true → scoreOr0 x.2 ≤ scoreOr0 c.2 := by
  intro l
  induction l with
  | nil => intro _ c hf; simp at hf
  | cons a l ih =>
      intro hs c hf x hx hprx
      obtain ⟨ha, hl⟩ := List.pairwise_cons.mp hs
      by_cases hpa : pr a = true
      · rw [List.find?_cons_of_pos _ hpa] at hf
        cases hf
        rcases List.mem_cons.mp hx with rfl | hx
        · exact le_refl _
        · exact ha x hx
      · rw [List.find?_cons_of_neg _ (by simpa using hpa)] at hf
        rcases List.mem_cons.mp hx with rfl | hx
        · exact absurd hprx hpa
        · exact ih hl hf x hx hprx

/-- **C4.** For every evidence list delivered sorted by descending score in
which each node's content type is one of the three priority types (unset
defaulting to `video`), if at least one node of each of the three types
clears the 0.3 threshold, then the diversified selection contains, for each
of the three types, a qualifying node of that type whose score is maximal
among the qualifying nodes of that type. -/
theorem claim_C4_type_diversity (source_nodes : List ScoredNode)
    (hsort : source_nodes.Pairwise (fun a b => scoreOr0 b ≤ scoreOr0 a))
    (htypes : ∀ n ∈ source_nodes, node_type n ∈ type_priority)
    (hall : ∀ t ∈ type_priority, ∃ n, n ∈ source_nodes ∧ node_type n = t ∧
      SOURCE_SCORE_THRESHOLD ≤ scoreOr0 n) :
    ∀ t ∈ type_priority, ∃ p, p ∈ diversify (candidatesOf source_nodes) ∧
      node_type p.2 = t ∧ SOURCE_SCORE_THRESHOLD ≤ scoreOr0 p.2 ∧
      ∀ m ∈ source_nodes, node_type m = t → SOURCE_SCORE_THRESHOLD ≤ scoreOr0 m →
        scoreOr0 m ≤ scoreOr0 p.2 := by
  intro t ht
  obtain ⟨n, hn, hntype, hnscore⟩ := hall t ht
  obtain ⟨i, hi⟩ := exists_candidate hn hnscore
  have hsome : ((candidatesOf source_nodes).find? (fun p => node_type p.2 == t)).isSome := by
    rw [List.find?_isSome]
    exact ⟨(i, n), hi, by simp [hntype]⟩
  obtain ⟨c, hc⟩ := Option.isSome_iff_exists.mp hsome
  have hcands : ∀ p ∈ candidatesOf source_nodes, node_type p.2 ∈ type_priority :=
    fun p hp => htypes p.2 (mem_candidatesOf hp).1
  have hmem : (t, c) ∈ bestGo (candidatesOf source_nodes) [] :=
    bestGo_finds ht (candidatesOf source_nodes) hcands [] c
      (by simp) (by simp) (by simp) hc
  have hval : c ∈ (bestGo (candidatesOf source_nodes) []).map (fun e => e.2) :=
    List.mem_map.mpr ⟨(t, c), hmem, rfl⟩
  have hdiv : c ∈ diversify (candidatesOf source_nodes) := by
    unfold diversify
    obtain ⟨ext, h1, _⟩ := fillGo_append (candidatesOf source_nodes)
      ((bestGo (candidatesOf source_nodes) []).map (fun e => e.2))
      (((bestGo (candidatesOf source_nodes) []).map (fun e => e.2)).map (fun p => p.1))
    rw [h1]
    exact List.mem_append_left _ hval
  have hctype : node_type c.2 = t := by simpa using List.find?_some hc
  have hcmem := List.mem_of_find?_eq_some hc
  refine ⟨c, hdiv, hctype, (mem_candidatesOf hcmem).2, ?_⟩
  intro m hm hmt hms
  obtain ⟨j, hj⟩ := exists_candidate hm hms
  have := find?_first_max (candidatesOf_pairwise hsort) hc (j, m) hj (by simp [hmt])
  simpa using this

/-- Concrete input for the C4 witness: one qualifying node of each type. -/
def c4Nodes : List ScoredNode :=
  [{ score := some (mkRat 9 10), meta := some { type := some "video" } },
   { score := some (mkRat 8 10), meta := some { type := some "pdf_document" } },
   { score := some (mkRat 5 10), meta := some { type := some "jira_ticket" } }]

/-- Witness for C4 at a concrete input, instantiated at type `video`. -/
theorem claim_C4_witness :
    ∃ p, p ∈ diversify (candidatesOf c4Nodes) ∧
      node_type p.2 = "video" ∧ SOURCE_SCORE_THRESHOLD ≤ scoreOr0 p.2 ∧
      ∀ m ∈ c4Nodes, node_type m = "video" → SOURCE_SCORE_THRESHOLD ≤ scoreOr0 m →
        scoreOr0 m ≤ scoreOr0 p.2 :=
  claim_C4_type_diversity c4Nodes (by decide) (by decide) (by decide) "video" (by decide)

/-! ## Vision Grounding Client (C9, C6) -/

/-- **C9.** The Vision Grounding Client (`_get_focus_coord`, a total
function in this model because every raise inside its `try` is caught)
returns `None` in each soft-failure case: (a) the Frame Locator finds no
local file and `FRONTEND_URL` is unset, so it returns `None`; (b) no
`GOOGLE_API_KEY` is configured; (c) the model reply does not parse as a
JSON object; (d) the parsed reply lacks one of the five required fields. -/
theorem claim_C9_soft_failures (cfg : AgentCfg) (ns : String) (fi : Int) (q : String) :
    (cfg.localFrames ns fi = none → cfg.frontendUrlEnv = "" →
      load_frame_image cfg ns fi = none ∧ get_focus_coord cfg ns fi q = none) ∧
    (cfg.apiKey = "" → get_focus_coord cfg ns fi q = none) ∧
    (∀ img, load_frame_image cfg ns fi = some img →
      cfg.vision (focusPrompt q) img = .ok none → get_focus_coord cfg ns fi q = none) ∧
    (∀ img coord, load_frame_image cfg ns fi = some img →
      cfg.vision (focusPrompt q) img = .ok (some coord) →
      (requiredCoordKeys.all (fun k => (coord.lookup k).isSome)) = false →
      get_focus_coord cfg ns fi q = none) := by
  refine ⟨?_, ?_, ?_, ?_⟩
  · intro h1 h2
    have hl : load_frame_image cfg ns fi = none := by
      unfold load_frame_image
      rw [h1, h2]
      rfl
    refine ⟨hl, ?_⟩
    unfold get_focus_coord
    rw [hl]
  · intro hk
    unfold get_focus_coord
    split
    · rfl
    · rw [hk]
      simp
  · intro img himg hv
    unfold get_focus_coord
    rw [himg]
    dsimp only
    split
    · rfl
    · rw [hv]
  · intro img coord himg hv hkeys
    unfold get_focus_coord
    rw [himg]
    dsimp only
    split
    · rfl
    · rw [hv]
      simp only [hkeys, Bool.false_eq_true, if_false]

/-- A concrete image value for witnesses. -/
def imgW : Image := ⟨0⟩

/-- A well-formed coordinate object. -/
def goodCoordObj : JsonObj :=
  [("x_pct", .jint 10), ("y_pct", .jint 10), ("w_pct", .jint 80), ("h_pct", .jint 80),
   ("label", .jstr "Screen area")]

/-- A parsed reply missing four of the five required fields. -/
def missingKeyObj : JsonObj := [("x_pct", .jint 10)]

/-- No local frame, no `FRONTEND_URL`. -/
def c9CfgA : AgentCfg :=
  { localFrames := fun _ _ => none, frontendUrlEnv := "", fetchFrame := fun _ => none,
    apiKey := "k", vision := fun _ _ => .ok (some goodCoordObj) }

/-- Frame available but no `GOOGLE_API_KEY`. -/
def c9CfgB : AgentCfg :=
  { localFrames := fun _ _ => some imgW, frontendUrlEnv := "", fetchFrame := fun _ => none,
    apiKey := "", vision := fun _ _ => .ok (some goodCoordObj) }

/-- Reply fails to parse as JSON. -/
def c9CfgC : AgentCfg :=
  { localFrames := fun _ _ => some imgW, frontendUrlEnv := "", fetchFrame := fun _ => none,
    apiKey := "k", vision := fun _ _ => .ok none }

/-- Reply parses but lacks required fields. -/
def c9CfgD : AgentCfg :=
  { localFrames := fun _ _ => some imgW, frontendUrlEnv := "", fetchFrame := fun _ => none,
    apiKey := "k", vision := fun _ _ => .ok (some missingKeyObj) }

/-- Witness for C9: each soft-failure case at a concrete configuration. -/
theorem claim_C9_witness :
    get_focus_coord c9CfgA "ns" 3 "q" = none ∧
    get_focus_coord c9CfgB "ns" 3 "q" = none ∧
    get_focus_coord c9CfgC "ns" 3 "q" = none ∧
    get_focus_coord c9CfgD "ns" 3 "q" = none :=
  ⟨((claim_C9_soft_failures c9CfgA "ns" 3 "q").1 rfl rfl).2,
   (claim_C9_soft_failures c9CfgB "ns" 3 "q").2.1 rfl,
   (claim_C9_soft_failures c9CfgC "ns" 3 "q").2.2.1 imgW rfl rfl,
   (claim_C9_soft_failures c9CfgD "ns" 3 "q").2.2.2 imgW missingKeyObj rfl rfl (by decide)⟩

/-- A parsed reply whose `x_pct` is far outside `[0, 100]` but which carries
all five required keys. -/
def c6BadCoord : JsonObj :=
  [("x_pct", .jint 500), ("y_pct", .jint 10), ("w_pct", .jint 80), ("h_pct", .jint 80),
   ("label", .jstr "Save button")]

/-- A configuration whose vision model replies with `c6BadCoord`. -/
def c6Cfg : AgentCfg :=
  { localFrames := fun _ _ => some imgW, frontendUrlEnv := "", fetchFrame := fun _ => none,
    apiKey := "k", vision := fun _ _ => .ok (some c6BadCoord) }

/-- Counterexample to **C6** as stated: `_get_focus_coord` returns a
coordinate whose `x_pct` is `500 ∉ [0, 100]` — the validation checks key
presence only, never the ranges. -/
theorem claim_C6_counterexample :
    get_focus_coord c6Cfg "ns" 1 "q" = some c6BadCoord ∧
    c6BadCoord.lookup "x_pct" = some (.jint 500) ∧
    ¬ (500 : Int) ≤ 100 :=
  ⟨rfl, rfl, by decide⟩

/-- **C6 (amended).** Every coordinate returned by `_get_focus_coord`
carries all five required fields (`x_pct`, `y_pct`, `w_pct`, `h_pct`,
`label`); the numeric ranges are *not* validated. -/
theorem claim_C6_keys_validated (cfg : AgentCfg) (ns : String) (fi : Int) (q : String)
    (coord : JsonObj) (h : get_focus_coord cfg ns fi q = some coord) :
    ∀ k ∈ requiredCoordKeys, (coord.lookup k).isSome = true := by
  unfold get_focus_coord at h
  split at h
  · exact absurd h (by simp)
  · split at h
    · exact absurd h (by simp)
    · split at h
      · exact absurd h (by simp)
      · exact absurd h (by simp)
      · split at h
        · next hall =>
            cases h
            intro k hk
            rw [List.all_eq_true] at hall
            simpa using hall k hk
        · exact absurd h (by simp)

/-- A fully working configuration: local frames present, credential set,
vision replying with a well-formed coordinate object. -/
def focusCfg : AgentCfg :=
  { localFrames := fun _ _ => some imgW, frontendUrlEnv := "", fetchFrame := fun _ => none,
    apiKey := "k", vision := fun _ _ => .ok (some goodCoordObj) }

/-- Witness for the amended C6 at a concrete configuration and key. -/
theorem claim_C6_witness : (goodCoordObj.lookup "x_pct").isSome = true :=
  claim_C6_keys_validated focusCfg "ns" 3 "q" goodCoordObj rfl "x_pct" (by decide)

/-! ## Focus-map invariants (C8) -/

/-- `taskStep` grows the task list by at most one entry. -/
theorem taskStep_length (video_tasks : List (Int × String)) (fi : Int) (rns : String) :
    (taskStep video_tasks fi rns).length ≤ video_tasks.length + 1 := by
  unfold taskStep
  split
  · omega
  · simp

/-- `taskStep` never shrinks the task list. -/
theorem taskStep_length_ge (video_tasks : List (Int × String)) (fi : Int) (rns : String) :
    video_tasks.length ≤ (taskStep video_tasks fi rns).length := by
  unfold taskStep
  split
  · omega
  · simp

/-- Membership in an extended task list. -/
theorem taskStep_mem {video_tasks : List (Int × String)} {fi : Int} {rns : String}
    {e : Int × String} (h : e ∈ taskStep video_tasks fi rns) :
    e ∈ video_tasks ∨ e = (fi, rns) := by
  unfold taskStep at h
  split at h
  · exact Or.inl h
  · rcases List.mem_append.mp h with h | h
    · exact Or.inl h
    · exact Or.inr (by simpa using h)

/-- `taskStep` preserves distinctness of keys when the new index is fresh. -/
theorem taskStep_keys_nodup {video_tasks : List (Int × String)} {fi : Int} {rns : String}
    (h1 : ((video_tasks.map (fun t => t.1)).Nodup))
    (hfresh : fi ∉ video_tasks.map (fun t => t.1)) :
    (((taskStep video_tasks fi rns).map (fun t => t.1)).Nodup) := by
  unfold taskStep
  split
  · exact h1
  · simp only [List.map_append, List.map_cons, List.map_nil]
    refine List.Nodup.append h1 (List.nodup_singleton _) ?_
    intro a ha hb
    simp only [List.mem_singleton] at hb
    subst hb
    exact hfresh ha

/-- Keys of an extended task list. -/
theorem taskStep_keys_subset {video_tasks : List (Int × String)} {fi : Int} {rns : String}
    {k : Int} (h : k ∈ (taskStep video_tasks fi rns).map (fun t => t.1)) :
    k ∈ video_tasks.map (fun t => t.1) ∨ k = fi := by
  unfold taskStep at h
  split at h
  · exact Or.inl h
  · simp only [List.map_append, List.map_cons, List.map_nil, List.mem_append,
      List.mem_singleton] at h
    rcases h with h | h
    · exact Or.inl h
    · exact Or.inr h

/-- The deduplication loop collects at most `MAX_VIDEO_FRAMES = 3` tasks
(when started with at most 2). -/
theorem collectVideoTasks_length :
    ∀ (l : List ScoredNode) (seen : List Int) (tasks : List (Int × String)) (ns : String)
      (r : List (Int × String)), tasks.length ≤ 2 →
      collectVideoTasks l seen tasks ns = .ok r → r.length ≤ 3 := by
  intro l
  induction l with
  | nil =>
      intro seen tasks ns r h hc
      simp only [collectVideoTasks] at hc
      cases hc
      omega
  | cons n rest ih =>
      intro seen tasks ns r h hc
      simp only [collectVideoTasks] at hc
      split at hc
      · exact ih _ _ _ _ h hc
      · split at hc
        · exact ih _ _ _ _ h hc
        · simp at hc
        · next fi hfi =>
            split at hc
            · exact ih _ _ _ _ h hc
            · split at hc
              · cases hc
                have := taskStep_length tasks fi (resolveNs (metaOf n) ns)
                omega
              · next hlt =>
                  refine ih _ _ _ _ ?_ hc
                  simp only [MAX_VIDEO_FRAMES] at hlt
                  omega

/-- The deduplication loop keeps frame indices pairwise distinct: every
collected key is recorded in `seen`, and a frame is only appended when its
index is fresh. -/
theorem collectVideoTasks_keys_nodup :
    ∀ (l : List ScoredNode) (seen : List Int) (tasks : List (Int × String)) (ns : String)
      (r : List (Int × String)),
      ((tasks.map (fun t => t.1)).Nodup) →
      (∀ k ∈ tasks.map (fun t => t.1), k ∈ seen) →
      collectVideoTasks l seen tasks ns = .ok r →
      ((r.map (fun t => t.1)).Nodup) := by
  intro l
  induction l with
  | nil =>
      intro seen tasks ns r h1 _ hc
      simp only [collectVideoTasks] at hc
      cases hc
      exact h1
  | cons n rest ih =>
      intro seen tasks ns r h1 h2 hc
      simp only [collectVideoTasks] at hc
      split at hc
      · exact ih _ _ _ _ h1 h2 hc
      · split at hc
        · exact ih _ _ _ _ h1 h2 hc
        · simp at hc
        · next fi hfi =>
            split at hc
            · exact ih _ _ _ _ h1 h2 hc
            · next hfresh =>
                have hnd' : (((taskStep tasks fi (resolveNs (metaOf n) ns)).map
                    (fun t => t.1)).Nodup) :=
                  taskStep_keys_nodup h1 (fun hmem => hfresh (h2 _ hmem))
                have hsub' : ∀ k ∈ (taskStep tasks fi (resolveNs (metaOf n) ns)).map
                    (fun t => t.1), k ∈ fi :: seen := by
                  intro k hk
                  rcases taskStep_keys_subset hk with hk | rfl
                  · exact List.mem_cons_of_mem _ (h2 k hk)
                  · exact List.mem_cons_self _ _
                split at hc
                · cases hc
                  exact hnd'
                · exact ih _ _ _ _ hnd' hsub' hc

/-- Every task collected by the deduplication loop that is not inherited
from the initial accumulator stems from a node of the scanned list that is
not pdf/jira-typed and carries exactly that (convertible) frame index. -/
theorem collectVideoTasks_provenance :
    ∀ (l : List ScoredNode) (seen : List Int) (tasks : List (Int × String)) (ns : String)
      (r : List (Int × String)),
      collectVideoTasks l seen tasks ns = .ok r →
      ∀ e ∈ r, e ∈ tasks ∨ ∃ n, n ∈ l ∧
        ¬((metaOf n).type = some "pdf_document" ∨ (metaOf n).type = some "jira_ticket") ∧
        (metaOf n).frame_index = some (.ok e.1) := by
  intro l
  induction l with
  | nil =>
      intro seen tasks ns r hc e he
      simp only [collectVideoTasks] at hc
      cases hc
      exact Or.inl he
  | cons n rest ih =>
      intro seen tasks ns r hc e he
      simp only [collectVideoTasks] at hc
      split at hc
      · rcases ih _ _ _ _ hc e he with h | ⟨m, hm, hr⟩
        · exact Or.inl h
        · exact Or.inr ⟨m, List.mem_cons_of_mem _ hm, hr⟩
      · next hnotpj =>
          split at hc
          · rcases ih _ _ _ _ hc e he with h | ⟨m, hm, hr⟩
            · exact Or.inl h
            · exact Or.inr ⟨m, List.mem_cons_of_mem _ hm, hr⟩
          · simp at hc
          · next fi hfi =>
              have hstep : e ∈ taskStep tasks fi (resolveNs (metaOf n) ns) →
                  e ∈ tasks ∨ ∃ m, m ∈ n :: rest ∧
                    ¬((metaOf m).type = some "pdf_document" ∨
                      (metaOf m).type = some "jira_ticket") ∧
                    (metaOf m).frame_index = some (.ok e.1) := by
                intro hmem
                rcases taskStep_mem hmem with hmem | rfl
                · exact Or.inl hmem
                · exact Or.inr ⟨n, List.mem_cons_self _ _, hnotpj, hfi⟩
              split at hc
              · rcases ih _ _ _ _ hc e he with h | ⟨m, hm, hr⟩
                · exact Or.inl h
                · exact Or.inr ⟨m, List.mem_cons_of_mem _ hm, hr⟩
              · split at hc
                · cases hc
                  exact hstep he
                · rcases ih _ _ _ _ hc e he with h | ⟨m, hm, hr⟩
                  · exact hstep h
                  · exact Or.inr ⟨m, List.mem_cons_of_mem _ hm, hr⟩

/-- Unfolding equation for `coordPairs` on a cons. -/
theorem coordPairs_cons (cfg : AgentCfg) (t : Int × String) (rest : List (Int × String))
    (q : String) :
    coordPairs cfg (t :: rest) q =
      match get_focus_coord cfg t.2 t.1 q with
      | none => coordPairs cfg rest q
      | some c => (t.1, c) :: coordPairs cfg rest q := by
  cases h : get_focus_coord cfg t.2 t.1 q <;>
    simp [coordPairs, List.filterMap_cons, h]

/-- The keys of the coords map form a sublist of the task keys. -/
theorem coordPairs_keys_sublist (cfg : AgentCfg) (q : String) :
    ∀ tasks, List.Sublist ((coordPairs cfg tasks q).map (fun p => p.1))
      (tasks.map (fun t => t.1)) := by
  intro tasks
  induction tasks with
  | nil => simp [coordPairs]
  | cons t rest ih =>
      rw [coordPairs_cons]
      cases h : get_focus_coord cfg t.2 t.1 q
      · exact ih.trans (List.sublist_cons_self _ _)
      · simpa using List.Sublist.cons₂ t.1 ih

/-- Every entry of the coords map is keyed by some task's frame index. -/
theorem coordPairs_mem {cfg : AgentCfg} {tasks : List (Int × String)} {q : String}
    {p : Int × JsonObj} (hp : p ∈ coordPairs cfg tasks q) :
    ∃ t, t ∈ tasks ∧ p.1 = t.1 := by
  obtain ⟨t, ht, he⟩ := List.mem_filterMap.mp hp
  obtain ⟨c, _, hpc⟩ := Option.map_eq_some'.mp he
  exact ⟨t, ht, by rw [← hpc]⟩

/-- A node that is neither pdf nor jira typed, with its type drawn from the
three known content types, is video-typed. -/
theorem video_of_not_pdf_jira {n : ScoredNode} (h : node_type n ∈ type_priority)
    (hn : ¬((metaOf n).type = some "pdf_document" ∨ (metaOf n).type = some "jira_ticket")) :
    node_type n = "video" := by
  push_neg at hn
  obtain ⟨h1, h2⟩ := hn
  unfold node_type at h ⊢
  rcases htype : (metaOf n).type with _ | s
  · rfl
  · rw [htype] at h
    simp only [Option.getD_some] at h ⊢
    simp only [type_priority, List.mem_cons, List.not_mem_nil, or_false] at h
    rcases h with rfl | rfl | rfl
    · rfl
    · exact absurd htype h1
    · exact absurd htype h2

/-- **C8.** For every captured evidence list whose node types are among the
three known content types, the coords map emitted in the `__FOCUS__` marker
has at most 3 entries, pairwise-distinct frame-index keys (stringification
of distinct integers), and every key is the (convertible) `frame_index`
carried by some video-backed node of the captured list. -/
theorem claim_C8_focus_map_invariants (cfg : AgentCfg) (captured : List ScoredNode)
    (q ns : String) (tasks : List (Int × String))
    (htypes : ∀ n ∈ captured, node_type n ∈ type_priority)
    (hcollect : collectVideoTasks captured [] [] ns = .ok tasks) :
    (coordPairs cfg tasks q).length ≤ 3 ∧
    (((coordPairs cfg tasks q).map (fun p => p.1)).Nodup) ∧
    ∀ p ∈ coordPairs cfg tasks q, ∃ n, n ∈ captured ∧ node_type n = "video" ∧
      (metaOf n).frame_index = some (.ok p.1) := by
  have hlen := collectVideoTasks_length captured [] [] ns tasks (by simp) hcollect
  have hnd := collectVideoTasks_keys_nodup captured [] [] ns tasks (by simp) (by simp) hcollect
  refine ⟨?_, hnd.sublist (coordPairs_keys_sublist cfg q tasks), ?_⟩
  · calc (coordPairs cfg tasks q).length ≤ tasks.length := List.length_filterMap_le _ _
      _ ≤ 3 := hlen
  · intro p hp
    obtain ⟨t, ht, hkey⟩ := coordPairs_mem hp
    rcases collectVideoTasks_provenance captured [] [] ns tasks hcollect t ht with h | ⟨n, hn, hnpj, hfi⟩
    · simp at h
    · exact ⟨n, hn, video_of_not_pdf_jira (htypes n hn) hnpj, by rw [hkey]; exact hfi⟩

/-- A video node carrying a convertible frame index. -/
def vidNode (fi : Int) : ScoredNode :=
  { score := some 1,
    meta := some { type := some "video", frame_index := some (.ok fi) },
    content := .ok (some "t") }

/-- Witness for C8 at a concrete capture and configuration. -/
theorem claim_C8_witness :
    (coordPairs focusCfg [(7, "myns")] "q").length ≤ 3 ∧
    (((coordPairs focusCfg [(7, "myns")] "q").map (fun p => p.1)).Nodup) ∧
    ∀ p ∈ coordPairs focusCfg [(7, "myns")] "q", ∃ n, n ∈ [vidNode 7] ∧
      node_type n = "video" ∧ (metaOf n).frame_index = some (.ok p.1) :=
  claim_C8_focus_map_invariants focusCfg [vidNode 7] "q" "myns" [(7, "myns")]
    (by decide) (by rfl)

/-! ## Focus-step failure propagation (C10) -/

/-- If the deduplication loop runs off the end of a prefix without hitting
the 3-task break (its result has fewer than 3 tasks), then running it on the
prefix extended by more nodes continues where the prefix run stopped, with
some extended `seen` set. -/
theorem collectVideoTasks_continue :
    ∀ (pre : List ScoredNode) (seen : List Int) (tasks : List (Int × String)) (ns : String)
      (r : List (Int × String)),
      collectVideoTasks pre seen tasks ns = .ok r → r.length < 3 →
      ∀ rest, ∃ seen', collectVideoTasks (pre ++ rest) seen tasks ns =
        collectVideoTasks rest seen' r ns := by
  intro pre
  induction pre with
  | nil =>
      intro seen tasks ns r hc _ rest
      simp only [collectVideoTasks] at hc
      cases hc
      exact ⟨seen, by simp⟩
  | cons n pre' ih =>
      intro seen tasks ns r hc hr rest
      rw [List.cons_append]
      by_cases h1 : (metaOf n).type = some "pdf_document" ∨ (metaOf n).type = some "jira_ticket"
      · simp only [collectVideoTasks, if_pos h1] at hc ⊢
        exact ih _ _ _ _ hc hr rest
      · simp only [collectVideoTasks, if_neg h1] at hc ⊢
        rcases hfi : (metaOf n).frame_index with _ | fv
        · rw [hfi] at hc
          exact ih _ _ _ _ hc hr rest
        · rcases fv with fs | fi
          · rw [hfi] at hc
            simp at hc
          · rw [hfi] at hc
            by_cases h2 : fi ∈ seen
            · simp only [if_pos h2] at hc ⊢
              exact ih _ _ _ _ hc hr rest
            · simp only [if_neg h2] at hc ⊢
              by_cases h3 : MAX_VIDEO_FRAMES ≤
                  (taskStep tasks fi (resolveNs (metaOf n) ns)).length
              · simp only [if_pos h3] at hc
                cases hc
                simp only [MAX_VIDEO_FRAMES] at h3
                omega
              · simp only [if_neg h3] at hc ⊢
                exact ih _ _ _ _ hc hr rest

/-- When the loop reaches a video-backed node with a non-convertible frame
index, it raises. -/
theorem collectVideoTasks_error {b : ScoredNode} {s : String}
    (hb1 : ¬((metaOf b).type = some "pdf_document" ∨ (metaOf b).type = some "jira_ticket"))
    (hb2 : (metaOf b).frame_index = some (.error s)) :
    ∀ (post : List ScoredNode) (seen : List Int) (tasks : List (Int × String)) (ns : String),
      collectVideoTasks (b :: post) seen tasks ns =
        .error ("invalid literal for int() with base 10: " ++ s) := by
  intro post seen tasks ns
  simp only [collectVideoTasks, if_neg hb1, hb2]

/-- A video node carrying a non-convertible frame index (Python's
`int("not-a-number")` raises `ValueError`). -/
def c10Bad : ScoredNode :=
  { score := some 1,
    meta := some { type := some "video", frame_index := some (.error "not-a-number") },
    content := .ok (some "t") }

/-- The captured list for the C10 counterexample: three distinct good video
frames followed by the bad node. -/
def c10Captured : List ScoredNode := [vidNode 1, vidNode 2, vidNode 3, c10Bad]

/-- Counterexample to **C10** as stated: the capture holds a video-backed
node whose `frame_index` is not convertible, yet `_get_focus_marker` does
*not* raise and the `__FOCUS__` marker is emitted — the loop breaks at the
3-frame cap before ever examining the bad node. -/
theorem claim_C10_counterexample :
    get_focus_marker focusCfg c10Captured "q" "myns" =
      .ok ("\n\n" ++ FOCUS_MARKER_START ++
        renderFocusMap [(1, goodCoordObj), (2, goodCoordObj), (3, goodCoordObj)] ++
        FOCUS_MARKER_END) := by
  rfl

/-- **C10 (amended).** If the deduplication loop actually reaches a
video-backed node with a non-convertible `frame_index` — that is, the node
follows a prefix whose processing collects fewer than `MAX_VIDEO_FRAMES`
tasks — then `_get_focus_marker` raises during the pre-dispatch loop, and
the orchestrator's catch omits the entire `__FOCUS__` marker (no per-frame
partial result) while the stream still ends normally.  A bad node occurring
after the cap has been reached is never examined (see the
counterexample). -/
theorem claim_C10_raise_before_cap (cfg : AgentCfg) (q ns : String)
    (pre post : List ScoredNode) (b : ScoredNode) (s : String)
    (tasks : List (Int × String))
    (hpre : collectVideoTasks pre [] [] ns = .ok tasks)
    (hlen : tasks.length < 3)
    (hb1 : ¬((metaOf b).type = some "pdf_document" ∨ (metaOf b).type = some "jira_ticket"))
    (hb2 : (metaOf b).frame_index = some (.error s)) :
    get_focus_marker cfg (pre ++ b :: post) q ns =
      .error ("invalid literal for int() with base 10: " ++ s) ∧
    ∀ r : RetrievalOk, capturedOf r = pre ++ b :: post →
      query_agent_stream cfg (.ok r) q ns =
        r.tokens ++ sourcesChunkList (pre ++ b :: post) := by
  obtain ⟨seen', heq⟩ := collectVideoTasks_continue pre [] [] ns tasks hpre hlen (b :: post)
  have herr : collectVideoTasks (pre ++ b :: post) [] [] ns =
      .error ("invalid literal for int() with base 10: " ++ s) := by
    rw [heq]
    exact collectVideoTasks_error hb1 hb2 post seen' tasks ns
  have hne : (pre ++ b :: post).isEmpty = false := by
    cases pre <;> rfl
  have hmarker : get_focus_marker cfg (pre ++ b :: post) q ns =
      .error ("invalid literal for int() with base 10: " ++ s) := by
    unfold get_focus_marker
    rw [hne]
    simp only [Bool.false_eq_true, if_false]
    rw [herr]
  refine ⟨hmarker, ?_⟩
  intro r hr
  have hfocus : focusChunkList cfg (pre ++ b :: post) q ns = [] := by
    unfold focusChunkList
    rw [hmarker]
  show r.tokens ++ sourcesChunkList (capturedOf r) ++ focusChunkList cfg (capturedOf r) q ns =
      r.tokens ++ sourcesChunkList (pre ++ b :: post)
  rw [hr, hfocus, List.append_nil]

/-- The retrieval outcome used by the C10 witness. -/
def c10Retrieval : RetrievalOk :=
  { tokens := ["answer"], sourcesCapture := .ok (c10Bad :: [vidNode 1]) }

/-- Witness for the amended C10: the bad node heads the capture, so the
loop reaches it at once; the marker errors out and the orchestrator omits
only the focus chunk. -/
theorem claim_C10_witness :
    get_focus_marker focusCfg ([] ++ c10Bad :: [vidNode 1]) "q" "myns" =
      .error ("invalid literal for int() with base 10: " ++ "not-a-number") ∧
    query_agent_stream focusCfg (.ok c10Retrieval) "q" "myns" =
      c10Retrieval.tokens ++ sourcesChunkList ([] ++ c10Bad :: [vidNode 1]) := by
  have h := claim_C10_raise_before_cap focusCfg "q" "myns" [] [vidNode 1] c10Bad
    "not-a-number" [] (by rfl) (by decide) (by decide) (by rfl)
  exact ⟨h.1, h.2 c10Retrieval (by rfl)⟩

/-! ## Stream orchestrator (C1, C2) -/

/-- A non-empty sources marker is always framed by the sources sentinels. -/
theorem serialize_sources_shape {source_nodes : List ScoredNode} {m : String}
    (h : serialize_sources source_nodes = .ok m) (hm : m ≠ "") :
    ∃ body, m = "\n\n__SOURCES__" ++ body ++ "__END_SOURCES__" := by
  simp only [serialize_sources] at h
  split at h
  · exact absurd (Except.ok.inj h).symm hm
  · split at h
    · exact Except.noConfusion h
    · exact ⟨_, (Except.ok.inj h).symm⟩

/-- A non-empty focus marker is always framed by the focus sentinels. -/
theorem get_focus_marker_shape {cfg : AgentCfg} {captured : List ScoredNode}
    {q ns m : String} (h : get_focus_marker cfg captured q ns = .ok m) (hm : m ≠ "") :
    ∃ body, m = "\n\n" ++ FOCUS_MARKER_START ++ body ++ FOCUS_MARKER_END := by
  simp only [get_focus_marker] at h
  split at h
  · exact absurd (Except.ok.inj h).symm hm
  · split at h
    · exact Except.noConfusion h
    · split at h
      · exact absurd (Except.ok.inj h).symm hm
      · split at h
        · exact absurd (Except.ok.inj h).symm hm
        · exact ⟨_, (Except.ok.inj h).symm⟩

/-- The sources step contributes either nothing or exactly one framed
chunk. -/
theorem sourcesChunkList_shape (source_nodes : List ScoredNode) :
    sourcesChunkList source_nodes = [] ∨
      ∃ body, sourcesChunkList source_nodes =
        ["\n\n__SOURCES__" ++ body ++ "__END_SOURCES__"] := by
  unfold sourcesChunkList
  cases h : serialize_sources source_nodes with
  | error e => exact Or.inl rfl
  | ok m =>
      by_cases hm : m = ""
      · subst hm
        left
        show (if ("" : String) = "" then ([] : List String) else [""]) = []
        rw [if_pos rfl]
      · obtain ⟨body, rfl⟩ := serialize_sources_shape h hm
        refine Or.inr ⟨body, ?_⟩
        show (if ("\n\n__SOURCES__" ++ body ++ "__END_SOURCES__") = "" then ([] : List String)
          else ["\n\n__SOURCES__" ++ body ++ "__END_SOURCES__"]) = _
        rw [if_neg hm]

/-- The focus step contributes either nothing or exactly one framed
chunk. -/
theorem focusChunkList_shape (cfg : AgentCfg) (source_nodes : List ScoredNode)
    (q ns : String) :
    focusChunkList cfg source_nodes q ns = [] ∨
      ∃ body, focusChunkList cfg source_nodes q ns =
        ["\n\n" ++ FOCUS_MARKER_START ++ body ++ FOCUS_MARKER_END] := by
  unfold focusChunkList
  cases h : get_focus_marker cfg source_nodes q ns with
  | error e => exact Or.inl rfl
  | ok m =>
      by_cases hm : m = ""
      · subst hm
        left
        show (if ("" : String) = "" then ([] : List String) else [""]) = []
        rw [if_pos rfl]
      · obtain ⟨body, rfl⟩ := get_focus_marker_shape h hm
        refine Or.inr ⟨body, ?_⟩
        show (if ("\n\n" ++ FOCUS_MARKER_START ++ body ++ FOCUS_MARKER_END) = ""
          then ([] : List String)
          else ["\n\n" ++ FOCUS_MARKER_START ++ body ++ FOCUS_MARKER_END]) = _
        rw [if_neg hm]

/-- **C2.** For every successful run of `query_agent_stream`, the emitted
chunk sequence is the token chunks (in arrival order) followed by at most
one `__SOURCES__`-framed chunk followed by at most one `__FOCUS__`-framed
chunk: the sources marker never follows the focus marker and no marker ever
precedes a token chunk. -/
theorem claim_C2_chunk_ordering (cfg : AgentCfg) (r : RetrievalOk) (q ns : String) :
    ∃ s f, query_agent_stream cfg (.ok r) q ns = r.tokens ++ s ++ f ∧
      (s = [] ∨ ∃ body, s = ["\n\n__SOURCES__" ++ body ++ "__END_SOURCES__"]) ∧
      (f = [] ∨ ∃ body, f = ["\n\n" ++ FOCUS_MARKER_START ++ body ++ FOCUS_MARKER_END]) :=
  ⟨sourcesChunkList (capturedOf r), focusChunkList cfg (capturedOf r) q ns,
    rfl, sourcesChunkList_shape (capturedOf r),
    focusChunkList_shape cfg (capturedOf r) q ns⟩

/-- **C1.** Failure semantics of the orchestrator: a retrieval (step 1)
failure yields exactly one chunk, prefixed `[System Error]`, and the stream
ends; when retrieval succeeds, the token stream is always emitted intact as
a prefix of the output, a `_serialize_sources` exception is caught and only
omits the sources chunk (the focus step still runs), and a
`_get_focus_marker` exception is caught and only omits the focus chunk
(after the sources chunk, if any, was emitted). -/
theorem claim_C1_failure_semantics (cfg : AgentCfg) (q ns : String) :
    (∀ e, query_agent_stream cfg (.error e) q ns = [systemErrorChunk e] ∧
      ∃ rest, systemErrorChunk e = "[System Error]" ++ rest) ∧
    (∀ r : RetrievalOk, ∃ extra,
      query_agent_stream cfg (.ok r) q ns = r.tokens ++ extra) ∧
    (∀ r : RetrievalOk, ∀ e, serialize_sources (capturedOf r) = .error e →
      query_agent_stream cfg (.ok r) q ns =
        r.tokens ++ focusChunkList cfg (capturedOf r) q ns) ∧
    (∀ r : RetrievalOk, ∀ e, get_focus_marker cfg (capturedOf r) q ns = .error e →
      query_agent_stream cfg (.ok r) q ns =
        r.tokens ++ sourcesChunkList (capturedOf r)) := by
  refine ⟨?_, ?_, ?_, ?_⟩
  · intro e
    refine ⟨rfl, " Unable to query knowledge base. Error: " ++ e, ?_⟩
    simp only [systemErrorChunk]
    rw [← String.append_assoc]
    rfl
  · intro r
    refine ⟨sourcesChunkList (capturedOf r) ++ focusChunkList cfg (capturedOf r) q ns, ?_⟩
    show r.tokens ++ sourcesChunkList (capturedOf r) ++
        focusChunkList cfg (capturedOf r) q ns =
      r.tokens ++ (sourcesChunkList (capturedOf r) ++ focusChunkList cfg (capturedOf r) q ns)
    rw [List.append_assoc]
  · intro r e he
    show r.tokens ++ sourcesChunkList (capturedOf r) ++ focusChunkList cfg (capturedOf r) q ns =
        r.tokens ++ focusChunkList cfg (capturedOf r) q ns
    have : sourcesChunkList (capturedOf r) = [] := by
      unfold sourcesChunkList
      rw [he]
    rw [this, List.append_nil]
  · intro r e he
    show r.tokens ++ sourcesChunkList (capturedOf r) ++ focusChunkList cfg (capturedOf r) q ns =
        r.tokens ++ sourcesChunkList (capturedOf r)
    have : focusChunkList cfg (capturedOf r) q ns = [] := by
      unfold focusChunkList
      rw [he]
    rw [this, List.append_nil]

/-- A node whose serialisation defeats `json.dumps` (non-serialisable
metadata value) and whose frame index defeats `int(...)`. -/
def c1BadNode : ScoredNode :=
  { score := some 1,
    meta := some { type := some "video", frame_index := some (.error "deploy-video"),
                   jsonSerializable := false },
    content := .ok (some "t") }

/-- The retrieval outcome used by the C1 witness. -/
def c1Retrieval : RetrievalOk :=
  { tokens := ["Hello", " world"], sourcesCapture := .ok [c1BadNode] }

/-- Witness for C1 at concrete inputs: a step-1 failure, and a capture on
which both enrichment steps raise — each marker is omitted without
disturbing the token stream. -/
theorem claim_C1_witness :
    query_agent_stream focusCfg (.error "boom") "q" "ns" = [systemErrorChunk "boom"] ∧
    query_agent_stream focusCfg (.ok c1Retrieval) "q" "ns" =
      c1Retrieval.tokens ++ focusChunkList focusCfg (capturedOf c1Retrieval) "q" "ns" ∧
    query_agent_stream focusCfg (.ok c1Retrieval) "q" "ns" =
      c1Retrieval.tokens ++ sourcesChunkList (capturedOf c1Retrieval) :=
  ⟨((claim_C1_failure_semantics focusCfg "q" "ns").1 "boom").1,
   (claim_C1_failure_semantics focusCfg "q" "ns").2.2.1 c1Retrieval
     "Object of type X is not JSON serializable" (by rfl),
   (claim_C1_failure_semantics focusCfg "q" "ns").2.2.2 c1Retrieval
     ("invalid literal for int() with base 10: " ++ "deploy-video") (by rfl)⟩
